import Mathlib

/-!
Verification of the screenshot crop-and-annotate subsystem of the feedback
widget (src/screenshotter.tsx and src/annotator.tsx).

Coordinates are modelled over ℚ (the source works with JS numbers used as
exact reals in all the geometry here).  Component state held in React
`useState` hooks is modelled as explicit state records, and each event
handler becomes a total step function on that state.
-/

namespace Feedback

/-- A 2-D point in canvas/CSS pixel space (interface Point / pointer coords). -/
structure Point where
  x : ℚ
  y : ℚ
deriving DecidableEq, Repr

/-- interface Rect of screenshotter.tsx: x, y, w, h. -/
structure Rect where
  x : ℚ
  y : ℚ
  w : ℚ
  h : ℚ
deriving DecidableEq, Repr

/-- `toRect` of CropOverlay: the normalized rectangle spanned by the two
corners (ax, ay) and (bx, by): `Math.min` on each coordinate, `Math.abs`
on each extent. -/
def toRect (ax ay bx b_y : ℚ) : Rect :=
  { x := min ax bx
    y := min ay b_y
    w := |bx - ax|
    h := |b_y - ay| }

/-! ## Crop/Region Selector state machine (CropOverlay) -/

/-- The `useState` hooks of CropOverlay: `drag` (origin of the active drag,
if any), `rect` (the current selection rectangle, if any), `confirmed`. -/
structure CropState where
  drag : Option (ℚ × ℚ)
  rect : Option Rect
  confirmed : Bool
deriving DecidableEq, Repr

/-- Initial CropOverlay state: `useState(null)`, `useState(null)`,
`useState(false)`. -/
def cropInit : CropState :=
  { drag := none, rect := none, confirmed := false }

/-- The events CropOverlay reacts to.  `pointerUp` also stands for
mouse-leave, which is wired to the same handler.  `redoClick` is the Redo
button (whose mouse-down does not propagate to the overlay). -/
inductive CropEvent where
  | pointerDown (x y : ℚ)
  | pointerMove (x y : ℚ)
  | pointerUp
  | redoClick
deriving DecidableEq, Repr

/-- `hasRect` of CropOverlay: `rect && rect.w > 10 && rect.h > 10`. -/
def validRect : Option Rect → Bool
  | some r => decide (10 < r.w) && decide (10 < r.h)
  | none => false

/-- One step of the CropOverlay handlers:
`onPointerDown` records the drag origin and clears rect and confirmed;
`onPointerMove` recomputes the rectangle from the origin when a drag is
active; `onPointerUp` ends the drag and sets `confirmed` only when the
rectangle exceeds the 10×10 dead zone; the Redo button discards the
rectangle and the confirmed flag. -/
def stepCrop (s : CropState) (e : CropEvent) : CropState :=
  match e with
  | .pointerDown x y => { drag := some (x, y), rect := none, confirmed := false }
  | .pointerMove x y =>
      match s.drag with
      | none => s
      | some (sx, sy) => { s with rect := some (toRect sx sy x y) }
  | .pointerUp =>
      match s.rect with
      | some r =>
          if 10 < r.w ∧ 10 < r.h then { s with drag := none, confirmed := true }
          else { s with drag := none }
      | none => { s with drag := none }
  | .redoClick => { s with rect := none, confirmed := false }

/-- Run a list of CropOverlay events from a state. -/
def runCrop (s : CropState) (evs : List CropEvent) : CropState :=
  evs.foldl stepCrop s

/-- Whether an event is a pointer-move (the only events occurring strictly
inside a drag gesture). -/
def CropEvent.isMove : CropEvent → Bool
  | .pointerMove _ _ => true
  | _ => false

/-! ## Lemmas about the crop state machine -/

/-- Characterization of `onPointerUp`: the drag ends, the rectangle is left
untouched, and `confirmed` becomes true exactly when the rectangle exceeds
the dead zone (otherwise it keeps its previous value). -/
lemma stepCrop_up (s : CropState) :
    stepCrop s .pointerUp =
      { drag := none, rect := s.rect, confirmed := validRect s.rect || s.confirmed } := by
  match h : s.rect with
  | none => simp [stepCrop, validRect, h]
  | some r =>
      simp only [stepCrop, h, validRect]
      by_cases hw : 10 < r.w
      · by_cases hh : 10 < r.h
        · simp [hw, hh]
        · simp [hw, hh]
      · simp [hw]

lemma stepCrop_move_confirmed_drag (s : CropState) (x y : ℚ) :
    (stepCrop s (.pointerMove x y)).confirmed = s.confirmed ∧
    (stepCrop s (.pointerMove x y)).drag = s.drag := by
  match h : s.drag with
  | none => simp [stepCrop, h]
  | some (a, b) => simp [stepCrop, h]

lemma runCrop_moves_confirmed_drag (moves : List CropEvent) :
    ∀ s : CropState, (∀ e ∈ moves, e.isMove = true) →
      (runCrop s moves).confirmed = s.confirmed ∧ (runCrop s moves).drag = s.drag := by
  induction moves with
  | nil => exact fun s _ => ⟨rfl, rfl⟩
  | cons e ms ih =>
      intro s hm
      have he : e.isMove = true := hm e (by simp)
      have hms : ∀ e2 ∈ ms, e2.isMove = true := fun e2 h2 => hm e2 (by simp [h2])
      cases e with
      | pointerMove x y =>
          have h1 := stepCrop_move_confirmed_drag s x y
          have h2 := ih (stepCrop s (.pointerMove x y)) hms
          have hrun : runCrop s (CropEvent.pointerMove x y :: ms) =
              runCrop (stepCrop s (.pointerMove x y)) ms := rfl
          rw [hrun]
          exact ⟨h2.1.trans h1.1, h2.2.trans h1.2⟩
      | pointerDown x y => simp [CropEvent.isMove] at he
      | pointerUp => simp [CropEvent.isMove] at he
      | redoClick => simp [CropEvent.isMove] at he

/-- C4: toRect returns the min-corner/absolute-size normalization of its two
corner arguments, and is commutative in the two corners. -/
theorem toRect_normalizes_and_commutes (ax ay bx b_y : ℚ) :
    toRect ax ay bx b_y =
      { x := min ax bx, y := min ay b_y, w := |bx - ax|, h := |b_y - ay| } ∧
    toRect ax ay bx b_y = toRect bx b_y ax ay := by
  refine ⟨rfl, ?_⟩
  simp only [toRect, Rect.mk.injEq]
  exact ⟨min_comm _ _, min_comm _ _, abs_sub_comm _ _, abs_sub_comm _ _⟩

/-- C9: a pointer-down in any CropOverlay state — including `confirming` —
discards the current rectangle, clears the confirmed flag, and starts a new
drag at the pointer position. -/
theorem crop_pointerDown_resets (s : CropState) (x y : ℚ) :
    stepCrop s (.pointerDown x y) =
      { drag := some (x, y), rect := none, confirmed := false } := rfl

/-- C2: releasing the pointer after a drag whose resulting normalized
rectangle is within the 10×10 dead zone (width ≤ 10 or height ≤ 10, or no
rectangle at all) never puts the selector into the confirming state. -/
theorem crop_subthreshold_never_confirming
    (s : CropState) (x y : ℚ) (moves : List CropEvent)
    (hm : ∀ e ∈ moves, e.isMove = true)
    (hsub : ∀ r : Rect, (runCrop (stepCrop s (.pointerDown x y)) moves).rect = some r →
        r.w ≤ 10 ∨ r.h ≤ 10) :
    (stepCrop (runCrop (stepCrop s (.pointerDown x y)) moves) .pointerUp).confirmed
      = false := by
  have hc : (runCrop (stepCrop s (.pointerDown x y)) moves).confirmed = false := by
    have h := (runCrop_moves_confirmed_drag moves (stepCrop s (.pointerDown x y)) hm).1
    simpa [stepCrop] using h
  rw [stepCrop_up]
  show (validRect (runCrop (stepCrop s (.pointerDown x y)) moves).rect ||
      (runCrop (stepCrop s (.pointerDown x y)) moves).confirmed) = false
  rw [hc, Bool.or_false]
  match hr : (runCrop (stepCrop s (.pointerDown x y)) moves).rect with
  | none => rfl
  | some r =>
      rcases hsub r hr with h | h
      · simp [validRect, not_lt.mpr h]
      · simp [validRect, not_lt.mpr h]

theorem crop_subthreshold_never_confirming_witness :
    (∀ e ∈ [CropEvent.pointerMove 5 5], e.isMove = true) ∧
    (stepCrop (runCrop (stepCrop cropInit (.pointerDown 0 0)) [CropEvent.pointerMove 5 5])
        .pointerUp).confirmed = false := by
  refine ⟨by simp [CropEvent.isMove], ?_⟩
  refine crop_subthreshold_never_confirming cropInit 0 0 [CropEvent.pointerMove 5 5]
    (by simp [CropEvent.isMove]) ?_
  intro r hr
  have hrun : (runCrop (stepCrop cropInit (.pointerDown 0 0))
      [CropEvent.pointerMove 5 5]).rect = some (toRect 0 0 5 5) := rfl
  rw [hrun] at hr
  rw [Option.some_inj] at hr
  subst hr
  left
  simp only [toRect]
  norm_num

/-- C3 counterexample: a sub-threshold drag (0,0)→(5,5) released: the selector
does not confirm, the drag ends, but the rectangle is NOT cleared from the
state — it remains `some ⟨0,0,5,5⟩`, contradicting the claim that the
selection rectangle is cleared/absent after a sub-threshold drag ends. -/
theorem crop_release_keeps_subthreshold_rect_cex :
    (runCrop cropInit [.pointerDown 0 0, .pointerMove 5 5, .pointerUp]).confirmed = false ∧
    (runCrop cropInit [.pointerDown 0 0, .pointerMove 5 5, .pointerUp]).drag = none ∧
    (runCrop cropInit [.pointerDown 0 0, .pointerMove 5 5, .pointerUp]).rect
      = some ⟨0, 0, 5, 5⟩ := by
  have h1 : runCrop cropInit [.pointerDown 0 0, .pointerMove 5 5, .pointerUp] =
      stepCrop (stepCrop (stepCrop cropInit (.pointerDown 0 0)) (.pointerMove 5 5))
        .pointerUp := rfl
  rw [h1, stepCrop_up]
  have h2 : (stepCrop (stepCrop cropInit (.pointerDown 0 0)) (.pointerMove 5 5)).rect
      = some ⟨0, 0, 5, 5⟩ := by
    show some (toRect 0 0 5 5) = some ⟨0, 0, 5, 5⟩
    simp only [toRect, Rect.mk.injEq, Option.some_inj]
    norm_num
  rw [h2]
  refine ⟨?_, rfl, rfl⟩
  show (validRect (some ⟨0, 0, 5, 5⟩) ||
    (stepCrop (stepCrop cropInit (.pointerDown 0 0)) (.pointerMove 5 5)).confirmed) = false
  have h3 : validRect (some (⟨0, 0, 5, 5⟩ : Rect)) = false := by norm_num [validRect]
  rw [h3, Bool.false_or]
  rfl

/-- C3 amended: pointer-up after a drag enters confirming iff the rectangle
exceeds the 10×10 dead zone on both axes; otherwise the selector is back to
idle (no active drag, not confirming) — but the sub-threshold rectangle is
retained in the state (pointer-up never changes the stored rectangle; it is
only cleared by the next pointer-down or by Redo). -/
theorem crop_pointerUp_amended
    (s : CropState) (x y : ℚ) (moves : List CropEvent)
    (hm : ∀ e ∈ moves, e.isMove = true) :
    ((stepCrop (runCrop (stepCrop s (.pointerDown x y)) moves) .pointerUp).confirmed = true ↔
        ∃ r : Rect, (runCrop (stepCrop s (.pointerDown x y)) moves).rect = some r ∧
          10 < r.w ∧ 10 < r.h) ∧
    (stepCrop (runCrop (stepCrop s (.pointerDown x y)) moves) .pointerUp).drag = none ∧
    (stepCrop (runCrop (stepCrop s (.pointerDown x y)) moves) .pointerUp).rect =
      (runCrop (stepCrop s (.pointerDown x y)) moves).rect := by
  have hc : (runCrop (stepCrop s (.pointerDown x y)) moves).confirmed = false := by
    have h := (runCrop_moves_confirmed_drag moves (stepCrop s (.pointerDown x y)) hm).1
    simpa [stepCrop] using h
  rw [stepCrop_up]
  refine ⟨?_, rfl, rfl⟩
  show (validRect (runCrop (stepCrop s (.pointerDown x y)) moves).rect ||
      (runCrop (stepCrop s (.pointerDown x y)) moves).confirmed) = true ↔ _
  rw [hc, Bool.or_false]
  match hr : (runCrop (stepCrop s (.pointerDown x y)) moves).rect with
  | none => simp [validRect]
  | some r => simp [validRect]

theorem crop_pointerUp_amended_witness :
    (∀ e ∈ [CropEvent.pointerMove 20 20], e.isMove = true) ∧
    (((stepCrop (runCrop (stepCrop cropInit (.pointerDown 0 0)) [CropEvent.pointerMove 20 20])
          .pointerUp).confirmed = true ↔
        ∃ r : Rect, (runCrop (stepCrop cropInit (.pointerDown 0 0))
            [CropEvent.pointerMove 20 20]).rect = some r ∧ 10 < r.w ∧ 10 < r.h) ∧
      (stepCrop (runCrop (stepCrop cropInit (.pointerDown 0 0)) [CropEvent.pointerMove 20 20])
          .pointerUp).drag = none ∧
      (stepCrop (runCrop (stepCrop cropInit (.pointerDown 0 0)) [CropEvent.pointerMove 20 20])
          .pointerUp).rect =
        (runCrop (stepCrop cropInit (.pointerDown 0 0)) [CropEvent.pointerMove 20 20]).rect) :=
  ⟨by simp [CropEvent.isMove],
   crop_pointerUp_amended cropInit 0 0 [CropEvent.pointerMove 20 20]
     (by simp [CropEvent.isMove])⟩

/-! ## Phase Coordinator (Screenshotter) -/

/-- type Phase = "crop" | "annotate". -/
inductive Phase where
  | crop
  | annotate
deriving DecidableEq, Repr

/-- The Screenshotter component's state: its `phase` and `cropRect` hooks,
the state of the CropOverlay it renders during the crop phase, and whether
the session has ended (`onDone` → `some true`, `onCancel` → `some false`);
after either callback the host unmounts the overlay, so a finished session
accepts no further events. -/
structure ShotState where
  phase : Phase
  cropOv : CropState
  cropRect : Option Rect
  finished : Option Bool
deriving DecidableEq, Repr

/-- Initial Screenshotter state: `useState("crop")`, `useState(null)`. -/
def shotInit : ShotState :=
  { phase := .crop, cropOv := cropInit, cropRect := none, finished := none }

/-- The Screenshotter-level events: overlay pointer events (delivered only
while the crop phase renders the CropOverlay), the "Annotate →" button that
triggers `onConfirm`/`handleCropConfirm` (it exists only while
`confirmed && hasRect`), the "Use this screenshot" button of the annotate
phase, and cancellation (any Cancel button or the Escape key). -/
inductive ShotEvent where
  | cropEv (e : CropEvent)
  | annotateClick
  | doneClick
  | cancelClick
deriving DecidableEq, Repr

/-- One step of the Screenshotter.  `handleCropConfirm` stores the selected
rectangle and sets the phase to annotate; no handler ever sets the phase
back to crop. -/
def stepShot (s : ShotState) (e : ShotEvent) : ShotState :=
  if s.finished.isSome then s
  else
    match e with
    | .cropEv ce =>
        if s.phase = .crop then { s with cropOv := stepCrop s.cropOv ce } else s
    | .annotateClick =>
        if s.phase = .crop ∧ s.cropOv.confirmed = true ∧ validRect s.cropOv.rect = true then
          { s with phase := .annotate, cropRect := s.cropOv.rect }
        else s
    | .doneClick =>
        if s.phase = .annotate then { s with finished := some true } else s
    | .cancelClick => { s with finished := some false }

/-- Run a list of Screenshotter events from the initial state. -/
def runShot (s : ShotState) (evs : List ShotEvent) : ShotState :=
  evs.foldl stepShot s

lemma stepShot_phase_annotate (s : ShotState) (e : ShotEvent)
    (h : s.phase = .annotate) : (stepShot s e).phase = .annotate := by
  by_cases hf : s.finished.isSome
  · simpa [stepShot, hf] using h
  · cases e with
    | cropEv ce =>
        by_cases hp : s.phase = .crop
        · rw [hp] at h; exact absurd h (by simp)
        · simpa [stepShot, hf, hp] using h
    | annotateClick =>
        by_cases hg : s.phase = .crop ∧ s.cropOv.confirmed = true ∧
            validRect s.cropOv.rect = true
        · rw [hg.1] at h; exact absurd h (by simp)
        · simpa [stepShot, hf, hg] using h
    | doneClick => simp [stepShot, hf, h]
    | cancelClick => simpa [stepShot, hf] using h

lemma stepShot_inv (s : ShotState) (e : ShotEvent)
    (h : s.phase = .annotate → validRect s.cropRect = true) :
    (stepShot s e).phase = .annotate → validRect (stepShot s e).cropRect = true := by
  by_cases hf : s.finished.isSome
  · simpa [stepShot, hf] using h
  · cases e with
    | cropEv ce =>
        by_cases hp : s.phase = .crop
        · intro hann
          simp [stepShot, hf, hp] at hann
        · simpa [stepShot, hf, hp] using h
    | annotateClick =>
        by_cases hg : s.phase = .crop ∧ s.cropOv.confirmed = true ∧
            validRect s.cropOv.rect = true
        · intro hann
          simp only [stepShot, hf, Bool.false_eq_true, if_false, if_pos hg]
          exact hg.2.2
        · simpa [stepShot, hf, hg] using h
    | doneClick =>
        by_cases hp : s.phase = .annotate
        · simp [stepShot, hf, hp]
          exact h hp
        · simp [stepShot, hf, hp]
    | cancelClick => simpa [stepShot, hf] using h

lemma runShot_inv (evs : List ShotEvent) :
    ∀ s : ShotState, (s.phase = .annotate → validRect s.cropRect = true) →
      ((runShot s evs).phase = .annotate → validRect (runShot s evs).cropRect = true) := by
  induction evs with
  | nil => exact fun s h => h
  | cons e es ih =>
      intro s h
      exact ih (stepShot s e) (stepShot_inv s e h)

/-- C8: the coordinator starts in the crop phase; whenever a reachable state
is in the annotate phase, the stored crop rectangle is a valid (dead-zone
exceeding) selection — the phase changes to annotate only through a
confirmed valid selection — and once the phase is annotate, no later event
ever brings it back to crop. -/
theorem shot_phase_unidirectional :
    shotInit.phase = .crop ∧
    (∀ evs : List ShotEvent, (runShot shotInit evs).phase = .annotate →
      validRect (runShot shotInit evs).cropRect = true) ∧
    (∀ (s : ShotState) (e : ShotEvent), s.phase = .annotate →
      (stepShot s e).phase = .annotate) := by
  refine ⟨rfl, ?_, stepShot_phase_annotate⟩
  intro evs
  exact runShot_inv evs shotInit (by intro h; exact absurd h (by simp [shotInit]))

theorem shot_phase_unidirectional_witness :
    (runShot shotInit [.cropEv (.pointerDown 0 0), .cropEv (.pointerMove 20 20),
        .cropEv .pointerUp, .annotateClick]).phase = .annotate ∧
    validRect (runShot shotInit [.cropEv (.pointerDown 0 0), .cropEv (.pointerMove 20 20),
        .cropEv .pointerUp, .annotateClick]).cropRect = true ∧
    (stepShot { phase := .annotate, cropOv := cropInit, cropRect := some ⟨0, 0, 20, 20⟩,
                finished := none } .cancelClick).phase = .annotate := by
  have hrun : runShot shotInit [.cropEv (.pointerDown 0 0), .cropEv (.pointerMove 20 20),
      .cropEv .pointerUp, .annotateClick] =
      stepShot (stepShot (stepShot (stepShot shotInit (.cropEv (.pointerDown 0 0)))
        (.cropEv (.pointerMove 20 20))) (.cropEv .pointerUp)) .annotateClick := rfl
  have hphase : (runShot shotInit [.cropEv (.pointerDown 0 0), .cropEv (.pointerMove 20 20),
      .cropEv .pointerUp, .annotateClick]).phase = .annotate := by
    rw [hrun]
    simp only [stepShot, stepCrop, shotInit, cropInit, runShot]
    norm_num [toRect, validRect]
  refine ⟨hphase, shot_phase_unidirectional.2.1 _ hphase, ?_⟩
  exact shot_phase_unidirectional.2.2 _ .cancelClick rfl

/-! ## JS String.prototype.trim -/

/-- The character-list model of `String.prototype.trim()`: remove leading
whitespace, then trailing whitespace (`List.rdropWhile` removes from the
tail).  `Char.isWhitespace` models the ASCII fragment of the JS whitespace
class, which is all the source ever commits. -/
def trimChars (l : List Char) : List Char :=
  (l.dropWhile Char.isWhitespace).rdropWhile Char.isWhitespace

/-- `textInput.trim()` as a String operation. -/
def jsTrim (s : String) : String :=
  ⟨trimChars s.data⟩

lemma dropWhile_head_not_of_eq_self {p : Char → Bool} {l : List Char}
    (hA : l.dropWhile p = l) :
    l = [] ∨ ∃ x xs, l = x :: xs ∧ p x = false := by
  match l with
  | [] => exact Or.inl rfl
  | x :: xs =>
      refine Or.inr ⟨x, xs, rfl, ?_⟩
      by_contra hpx
      have hpx2 : p x = true := by
        cases h : p x
        · exact absurd h hpx
        · rfl
      rw [List.dropWhile_cons, if_pos hpx2] at hA
      have hlen := congrArg List.length hA
      have hle : (xs.dropWhile p).length ≤ xs.length :=
        (List.dropWhile_sublist p).length_le
      simp only [List.length_cons] at hlen
      omega

lemma dropWhile_rdropWhile_of_eq_self {p : Char → Bool} {l : List Char}
    (hA : l.dropWhile p = l) :
    (l.rdropWhile p).dropWhile p = l.rdropWhile p := by
  rcases dropWhile_head_not_of_eq_self hA with h | ⟨x, xs, hcons, hpx⟩
  · subst h
    rfl
  · subst hcons
    have hx : (x :: xs).rdropWhile p = [] ∨
        ∃ t, (x :: xs).rdropWhile p = x :: t := by
      unfold List.rdropWhile
      rw [List.reverse_cons, List.dropWhile_append]
      by_cases he : ((xs.reverse).dropWhile p).isEmpty
      · rw [if_pos he]
        rw [show List.dropWhile p [x] = [x] from by
          rw [List.dropWhile_cons, if_neg (by simp [hpx])]]
        exact Or.inr ⟨[], rfl⟩
      · rw [if_neg he]
        rw [List.reverse_append]
        exact Or.inr ⟨(xs.reverse.dropWhile p).reverse, rfl⟩
    rcases hx with h | ⟨t, ht⟩
    · rw [h]
      rfl
    · rw [ht, List.dropWhile_cons, if_neg (by simp [hpx])]

/-- trimChars is idempotent: trimming a trimmed string changes nothing. -/
lemma trimChars_idem (l : List Char) : trimChars (trimChars l) = trimChars l := by
  unfold trimChars
  rw [dropWhile_rdropWhile_of_eq_self (List.dropWhile_idempotent _ _),
    List.rdropWhile_idempotent]

lemma jsTrim_idem (s : String) : jsTrim (jsTrim s) = jsTrim s := by
  unfold jsTrim
  exact congrArg String.mk (trimChars_idem s.data)

/-! ## Annotation model (annotator.tsx) -/

/-- type AnnotationTool = "rect" | "arrow" | "freehand" | "text". -/
inductive AnnotationTool where
  | rect
  | arrow
  | freehand
  | text
deriving DecidableEq, Repr

/-- interface Annotation: tool, color, points, optional text. -/
structure Annotation where
  tool : AnnotationTool
  color : String
  points : List Point
  text : Option String := none
deriving DecidableEq, Repr

/-- The AnnotationCanvas `useState` hooks that drive the interaction state
machine: the committed log, the selected tool and color, whether a drag is
active, the in-progress annotation, the pending text anchor, and the text
input value. -/
structure AnnState where
  annotations : List Annotation
  tool : AnnotationTool
  color : String
  drawing : Bool
  current : Option Annotation
  pendingText : Option Point
  textInput : String
deriving DecidableEq, Repr

/-- Initial AnnotationCanvas state: empty log, "rect" tool, "#ef4444"
color, no drag, no current annotation, no pending text. -/
def annInit : AnnState :=
  { annotations := [], tool := .rect, color := "#ef4444", drawing := false,
    current := none, pendingText := none, textInput := "" }

/-- The `undo` callback: `setAnnotations(prev => prev.slice(0, -1))`. -/
def undo (s : AnnState) : AnnState :=
  { s with annotations := s.annotations.dropLast }

/-- The `clear` callback: `setAnnotations([])`. -/
def clear (s : AnnState) : AnnState :=
  { s with annotations := [] }

/-- The `commitText` callback: bail out (only clearing the pending anchor)
when there is no pending anchor or the trimmed input is empty; otherwise
append one text annotation carrying the trimmed input and reset both the
anchor and the input. -/
def commitText (s : AnnState) : AnnState :=
  match s.pendingText with
  | none => { s with pendingText := none }
  | some p =>
      if jsTrim s.textInput = "" then { s with pendingText := none }
      else
        { s with
            annotations := s.annotations ++
              [{ tool := .text, color := s.color, points := [p],
                 text := some (jsTrim s.textInput) }]
            pendingText := none
            textInput := "" }

/-- The `setCurrent` updater inside `onMouseMove`: freehand appends the new
point to the polyline; rect/arrow replace the endpoint, keeping the anchor
`points[0]`.  (The source indexes `points[0]`, which always exists because
a current annotation is created with two points; `headD` supplies a dummy
for the unreachable empty case.) -/
def moveUpdate (c : Annotation) (p : Point) : Annotation :=
  if c.tool = .freehand then { c with points := c.points ++ [p] }
  else { c with points := [c.points.headD ⟨0, 0⟩, p] }

/-- Events of the AnnotationCanvas: canvas mouse events (`mouseUp` also
stands for mouse-leave, wired to the same handler), the text-input flow
(commit via Enter/Add, discard via Escape/close), toolbar tool and color
selection, typing in the text input, Undo and Clear. -/
inductive AnnEvent where
  | mouseDown (p : Point)
  | mouseMove (p : Point)
  | mouseUp
  | commitTextEv
  | escapeTextEv
  | setTool (t : AnnotationTool)
  | setColor (c : String)
  | setTextInput (v : String)
  | undoEv
  | clearEv
deriving DecidableEq, Repr

/-- One step of the AnnotationCanvas handlers, as written in the source:
`onMouseDown` places a text anchor (text tool) or starts a drag with a
degenerate two-point annotation; `onMouseMove` updates the current
annotation while a drag is active; `onMouseUp` commits the current
annotation to the end of the log. -/
def stepAnn (s : AnnState) (e : AnnEvent) : AnnState :=
  match e with
  | .mouseDown p =>
      if s.tool = .text then { s with pendingText := some p, textInput := "" }
      else
        { s with drawing := true
                 current := some { tool := s.tool, color := s.color, points := [p, p] } }
  | .mouseMove p =>
      if s.drawing = false then s
      else
        match s.current with
        | none => s
        | some c => { s with current := some (moveUpdate c p) }
  | .mouseUp =>
      if s.drawing = false then s
      else
        match s.current with
        | none => s
        | some c =>
            { s with drawing := false
                     annotations := s.annotations ++ [c]
                     current := none }
  | .commitTextEv => commitText s
  | .escapeTextEv => { s with pendingText := none }
  | .setTool t => { s with tool := t }
  | .setColor c => { s with color := c }
  | .setTextInput v => { s with textInput := v }
  | .undoEv => undo s
  | .clearEv => clear s

/-- Run a list of AnnotationCanvas events from a state. -/
def runAnn (s : AnnState) (evs : List AnnEvent) : AnnState :=
  evs.foldl stepAnn s

/-! ## Undo (C5) -/

lemma undo_iterate (n : ℕ) :
    ∀ s : AnnState, s.annotations.length = n → (undo^[n] s).annotations = [] := by
  induction n with
  | zero =>
      intro s h
      simpa [Function.iterate_zero] using List.length_eq_zero.mp h
  | succ n ih =>
      intro s h
      rw [Function.iterate_succ_apply]
      refine ih (undo s) ?_
      show (s.annotations.dropLast).length = n
      rw [List.length_dropLast, h]
      omega

/-- C5: undo removes exactly the last committed annotation of a non-empty
log, is a total no-op on the empty log, never touches the in-progress
annotation or the pending text anchor, and applied as many times as the log
is long empties the log. -/
theorem undo_spec (s : AnnState) :
    (s.annotations = [] → undo s = s) ∧
    (∀ (l : List Annotation) (a : Annotation),
        s.annotations = l ++ [a] → (undo s).annotations = l) ∧
    (undo s).current = s.current ∧
    (undo s).pendingText = s.pendingText ∧
    (undo^[s.annotations.length] s).annotations = [] := by
  refine ⟨?_, ?_, rfl, rfl, undo_iterate s.annotations.length s rfl⟩
  · intro h
    obtain ⟨ann, t, c, d, cur, pt, ti⟩ := s
    simp only at h
    simp [undo, h]
  · intro l a h
    simp [undo, h]

/-- A concrete rectangle annotation used by the witnesses below. -/
def exAnnA : Annotation :=
  { tool := .rect, color := "#ef4444", points := [⟨1, 1⟩, ⟨2, 2⟩] }

/-- A concrete arrow annotation used by the witnesses below. -/
def exAnnB : Annotation :=
  { tool := .arrow, color := "#000000", points := [⟨3, 3⟩, ⟨4, 4⟩] }

/-- A concrete annotator state with a two-entry log. -/
def exAnnState : AnnState :=
  { annotations := [exAnnA, exAnnB], tool := .rect, color := "#ef4444",
    drawing := false, current := none, pendingText := none, textInput := "" }

theorem undo_spec_witness :
    (undo exAnnState).annotations = [exAnnA] ∧
    (undo^[2] exAnnState).annotations = [] := by
  constructor
  · exact (undo_spec exAnnState).2.1 [exAnnA] exAnnB rfl
  · exact (undo_spec exAnnState).2.2.2.2

/-! ## Text commit (C6) -/

/-- C6: committing from the text-pending state with a non-empty trimmed
input appends exactly one text annotation (current color, the anchor as its
single point, the trimmed input as its text) to the end of the log and
clears the anchor and the input; committing with input that trims to empty
appends nothing and discards the anchor. -/
theorem commitText_spec (s : AnnState) (p : Point) (hp : s.pendingText = some p) :
    (jsTrim s.textInput ≠ "" →
      commitText s =
        { s with
            annotations := s.annotations ++
              [{ tool := .text, color := s.color, points := [p],
                 text := some (jsTrim s.textInput) }]
            pendingText := none
            textInput := "" }) ∧
    (jsTrim s.textInput = "" →
      (commitText s).annotations = s.annotations ∧
      (commitText s).pendingText = none) := by
  have hstep : commitText s =
      if jsTrim s.textInput = "" then { s with pendingText := none }
      else
        { s with
            annotations := s.annotations ++
              [{ tool := .text, color := s.color, points := [p],
                 text := some (jsTrim s.textInput) }]
            pendingText := none
            textInput := "" } := by
    simp only [commitText, hp]
  constructor
  · intro hne
    rw [hstep, if_neg hne]
  · intro he
    rw [hstep, if_pos he]
    exact ⟨rfl, rfl⟩

/-- A concrete annotator state mid text entry: anchor (50,50),
input "Bug here". -/
def exTextState : AnnState :=
  { annotations := [], tool := .text, color := "#ef4444", drawing := false,
    current := none, pendingText := some ⟨50, 50⟩, textInput := "Bug here" }

theorem commitText_spec_witness :
    (commitText exTextState).annotations =
      [{ tool := .text, color := "#ef4444", points := [⟨50, 50⟩],
         text := some "Bug here" }] := by
  have h := (commitText_spec exTextState ⟨50, 50⟩ rfl).1 (by decide)
  rw [h]
  decide

/-! ## Committed-log well-formedness (C10) -/

/-- Well-formedness of one committed annotation: shape tools carry at least
two points; a text annotation carries exactly one point and non-empty text
with no leading or trailing whitespace (it is its own trim). -/
def wfAnn (a : Annotation) : Prop :=
  match a.tool with
  | .text => a.points.length = 1 ∧ ∃ t, a.text = some t ∧ t ≠ "" ∧ jsTrim t = t
  | _ => 2 ≤ a.points.length

/-- The inductive invariant: every committed annotation is well-formed, and
the in-progress annotation (if any) is a shape with at least two points. -/
def AnnInv (s : AnnState) : Prop :=
  (∀ a ∈ s.annotations, wfAnn a) ∧
  (∀ c, s.current = some c → c.tool ≠ .text ∧ 2 ≤ c.points.length)

lemma stepAnn_inv (s : AnnState) (e : AnnEvent) (h : AnnInv s) :
    AnnInv (stepAnn s e) := by
  obtain ⟨hlog, hcur⟩ := h
  cases e with
  | mouseDown p =>
      by_cases ht : s.tool = .text
      · simp only [stepAnn, if_pos ht]
        exact ⟨hlog, hcur⟩
      · simp only [stepAnn, if_neg ht]
        refine ⟨hlog, ?_⟩
        intro c hc
        rw [Option.some_inj] at hc
        subst hc
        exact ⟨ht, by simp⟩
  | mouseMove p =>
      by_cases hd : s.drawing = false
      · simpa [stepAnn, hd] using ⟨hlog, hcur⟩
      · match hcs : s.current with
        | none => simpa [stepAnn, hd, hcs] using ⟨hlog, hcur⟩
        | some c =>
            have hgoal : stepAnn s (.mouseMove p) =
                { s with current := some (moveUpdate c p) } := by
              simp [stepAnn, hd, hcs]
            rw [hgoal]
            refine ⟨hlog, ?_⟩
            intro c2 hc2
            rw [Option.some_inj] at hc2
            subst hc2
            obtain ⟨htool, hlen⟩ := hcur c hcs
            unfold moveUpdate
            by_cases hf : c.tool = .freehand
            · rw [if_pos hf]
              constructor
              · simp [hf]
              · simp only [List.length_append, List.length_cons, List.length_nil]
                omega
            · rw [if_neg hf]
              exact ⟨htool, by simp⟩
  | mouseUp =>
      by_cases hd : s.drawing = false
      · simpa [stepAnn, hd] using ⟨hlog, hcur⟩
      · match hcs : s.current with
        | none => simpa [stepAnn, hd, hcs] using ⟨hlog, hcur⟩
        | some c =>
            have hgoal : stepAnn s .mouseUp =
                { s with drawing := false
                         annotations := s.annotations ++ [c]
                         current := none } := by
              simp [stepAnn, hd, hcs]
            rw [hgoal]
            constructor
            · intro a ha
              rcases List.mem_append.mp ha with ha2 | ha2
              · exact hlog a ha2
              · obtain ⟨htool, hlen⟩ := hcur c hcs
                rw [List.mem_singleton.mp ha2]
                unfold wfAnn
                match htl : c.tool with
                | .text => exact absurd htl htool
                | .rect => exact hlen
                | .arrow => exact hlen
                | .freehand => exact hlen
            · intro c2 hc2
              simp at hc2
  | commitTextEv =>
      match hpt : s.pendingText with
      | none =>
          simp only [stepAnn, commitText, hpt]
          exact ⟨hlog, hcur⟩
      | some p =>
          by_cases he : jsTrim s.textInput = ""
          · simp only [stepAnn, commitText, hpt, if_pos he]
            exact ⟨hlog, hcur⟩
          · simp only [stepAnn, commitText, hpt, if_neg he]
            constructor
            · intro a ha
              rcases List.mem_append.mp ha with ha2 | ha2
              · exact hlog a ha2
              · rw [List.mem_singleton.mp ha2]
                unfold wfAnn
                exact ⟨by simp, jsTrim s.textInput, rfl, he, jsTrim_idem _⟩
            · exact hcur
  | escapeTextEv => exact ⟨hlog, hcur⟩
  | setTool t => exact ⟨hlog, hcur⟩
  | setColor c => exact ⟨hlog, hcur⟩
  | setTextInput v => exact ⟨hlog, hcur⟩
  | undoEv =>
      refine ⟨?_, hcur⟩
      intro a ha
      exact hlog a ((List.dropLast_sublist s.annotations).subset ha)
  | clearEv =>
      refine ⟨?_, hcur⟩
      intro a ha
      simp [stepAnn, clear] at ha

lemma runAnn_inv (evs : List AnnEvent) :
    ∀ s : AnnState, AnnInv s → AnnInv (runAnn s evs) := by
  induction evs with
  | nil => exact fun s h => h
  | cons e es ih => exact fun s h => ih (stepAnn s e) (stepAnn_inv s e h)

/-- C10: the step function of the annotator preserves the log invariant
(shape annotations keep at least two points, text annotations exactly one
point and trimmed non-empty text), and consequently every annotation in the
committed log of any reachable annotator state is well-formed. -/
theorem annotation_log_wf :
    (∀ (s : AnnState) (e : AnnEvent), AnnInv s → AnnInv (stepAnn s e)) ∧
    (∀ evs : List AnnEvent, ∀ a ∈ (runAnn annInit evs).annotations, wfAnn a) := by
  refine ⟨stepAnn_inv, ?_⟩
  intro evs a ha
  exact (runAnn_inv evs annInit ⟨by simp [annInit], by simp [annInit]⟩).1 a ha

/-- The events of drawing one rectangle from (1,1) to (30,30). -/
def exDrawEvents : List AnnEvent :=
  [.mouseDown ⟨1, 1⟩, .mouseMove ⟨30, 30⟩, .mouseUp]

theorem annotation_log_wf_witness :
    wfAnn { tool := .rect, color := "#ef4444", points := [⟨1, 1⟩, ⟨30, 30⟩] } :=
  annotation_log_wf.2 exDrawEvents
    { tool := .rect, color := "#ef4444", points := [⟨1, 1⟩, ⟨30, 30⟩] }
    (by decide)

/-! ## Rendering (drawAnnotation of annotator.tsx) -/

/-- The style state of a CanvasRenderingContext2D that `drawAnnotation`
touches. -/
structure CtxStyle where
  strokeStyle : String
  fillStyle : String
  lineWidth : ℚ
  lineCap : String
  lineJoin : String
  globalAlpha : ℚ
  font : String
  shadowColor : String
  shadowBlur : ℚ
deriving DecidableEq, Repr

/-- A pixel-affecting drawing primitive, recorded together with the style
in force when it was issued.  `fillArrowHead s e len st` stands for the
filled triangle whose apex is `e` and whose two back corners are offset
from `e` by `len` at ±30° from the reverse of the direction
`atan2(e.y−s.y, e.x−s.x)` — a pure function of `s`, `e` and `len`, kept
abstract here because it involves transcendental functions. -/
inductive DrawOp where
  | strokeRect (x y w h : ℚ) (st : CtxStyle)
  | fillRect (x y w h : ℚ) (st : CtxStyle)
  | strokeLine (s e : Point) (st : CtxStyle)
  | fillArrowHead (s e : Point) (len : ℚ) (st : CtxStyle)
  | strokePolyline (pts : List Point) (st : CtxStyle)
  | fillTextOp (t : String) (p : Point) (st : CtxStyle)
deriving DecidableEq, Repr

/-- A 2D context: current style, the save/restore stack, and the ordered
list of pixel-affecting operations issued so far (the drawing surface). -/
structure Ctx where
  style : CtxStyle
  stack : List CtxStyle
  ops : List DrawOp
deriving DecidableEq, Repr

/-- ctx.save(): push the current style. -/
def ctxSave (c : Ctx) : Ctx :=
  { c with stack := c.style :: c.stack }

/-- ctx.restore(): pop the style stack (a no-op on an empty stack, as in
the canvas spec). -/
def ctxRestore (c : Ctx) : Ctx :=
  match c.stack with
  | [] => c
  | st :: rest => { c with style := st, stack := rest }

/-- Issue one pixel-affecting operation. -/
def ctxEmit (c : Ctx) (op : DrawOp) : Ctx :=
  { c with ops := c.ops ++ [op] }

/-- const STROKE_WIDTH = 3. -/
def STROKE_WIDTH : ℚ := 3

/-- const ARROW_HEAD = 12. -/
def ARROW_HEAD : ℚ := 12

/-- `drawAnnotation(ctx, ann)` of annotator.tsx: save the context, set
stroke/fill style to the annotation color, line width 3, round caps and
joins, then switch on the tool — each case first checks it has enough
points (and, for text, non-empty text) and otherwise draws nothing — and
finally restore the context. -/
def drawAnnotation (c : Ctx) (ann : Annotation) : Ctx :=
  let c1 := ctxSave c
  let c2 := { c1 with style := { c1.style with strokeStyle := ann.color
                                               fillStyle := ann.color
                                               lineWidth := STROKE_WIDTH
                                               lineCap := "round"
                                               lineJoin := "round" } }
  let c3 :=
    match ann.tool with
    | .rect =>
        match ann.points with
        | s :: e :: _ =>
            let c4 := ctxEmit c2 (.strokeRect s.x s.y (e.x - s.x) (e.y - s.y) c2.style)
            let c5 := { c4 with style := { c4.style with globalAlpha := 12 / 100 } }
            ctxEmit c5 (.fillRect s.x s.y (e.x - s.x) (e.y - s.y) c5.style)
        | _ => c2
    | .arrow =>
        match ann.points with
        | s :: e :: _ =>
            ctxEmit (ctxEmit c2 (.strokeLine s e c2.style))
              (.fillArrowHead s e ARROW_HEAD c2.style)
        | _ => c2
    | .freehand =>
        if ann.points.length < 2 then c2
        else ctxEmit c2 (.strokePolyline ann.points c2.style)
    | .text =>
        if ann.text.getD "" = "" ∨ ann.points.length < 1 then c2
        else
          let c6 := { c2 with style :=
            { c2.style with font := "bold 16px -apple-system, sans-serif"
                            shadowColor := "rgba(0,0,0,0.6)"
                            shadowBlur := 3 } }
          ctxEmit c6 (.fillTextOp (ann.text.getD "") (ann.points.headD ⟨0, 0⟩) c6.style)
  ctxRestore c3

/-- An annotation has insufficient data for its tool: fewer than 2 points
for rect/arrow/freehand; for text, no point or no/empty text. -/
def insufficient (a : Annotation) : Prop :=
  match a.tool with
  | .text => a.points.length < 1 ∨ a.text = none ∨ a.text = some ""
  | _ => a.points.length < 2

lemma ctxRestore_save_styled (c : Ctx) (st : CtxStyle) :
    ctxRestore { style := st, stack := c.style :: c.stack, ops := c.ops } = c :=
  rfl

/-- C7: drawAnnotation with insufficient points (or missing/empty text for
the text tool) is a total no-op: it emits no drawing operation and leaves
the whole context — surface and style state — unchanged. -/
theorem drawAnnotation_insufficient_noop (c : Ctx) (ann : Annotation)
    (h : insufficient ann) : drawAnnotation c ann = c := by
  unfold drawAnnotation
  match htool : ann.tool with
  | .rect =>
      have h2 : ann.points.length < 2 := by simpa [insufficient, htool] using h
      match hpts : ann.points with
      | [] => rfl
      | [p] => rfl
      | p1 :: p2 :: rest =>
          rw [hpts] at h2
          exact absurd h2 (by simp)
  | .arrow =>
      have h2 : ann.points.length < 2 := by simpa [insufficient, htool] using h
      match hpts : ann.points with
      | [] => rfl
      | [p] => rfl
      | p1 :: p2 :: rest =>
          rw [hpts] at h2
          exact absurd h2 (by simp)
  | .freehand =>
      have h2 : ann.points.length < 2 := by simpa [insufficient, htool] using h
      simp only [if_pos h2]
      rfl
  | .text =>
      have h2 : ann.points.length < 1 ∨ ann.text = none ∨ ann.text = some "" := by
        simpa [insufficient, htool] using h
      have h3 : ann.text.getD "" = "" ∨ ann.points.length < 1 := by
        rcases h2 with h1 | h1 | h1
        · exact Or.inr h1
        · rw [h1]
          exact Or.inl rfl
        · rw [h1]
          exact Or.inl rfl
      simp only [if_pos h3]
      rfl

/-- A concrete context with default style. -/
def exCtx : Ctx :=
  { style := { strokeStyle := "#000000", fillStyle := "#000000", lineWidth := 1,
               lineCap := "butt", lineJoin := "miter", globalAlpha := 1,
               font := "10px sans-serif", shadowColor := "rgba(0, 0, 0, 0)",
               shadowBlur := 0 }
    stack := []
    ops := [] }

theorem drawAnnotation_insufficient_noop_witness :
    drawAnnotation exCtx { tool := .rect, color := "#ef4444", points := [⟨1, 2⟩] }
      = exCtx :=
  drawAnnotation_insufficient_noop exCtx
    { tool := .rect, color := "#ef4444", points := [⟨1, 2⟩] }
    (by simp [insufficient])

/-! ## Crop extraction (handleCropConfirm of screenshotter.tsx) -/

/-- A bitmap: a native pixel size and a pixel lookup.  Pixel values are
abstract (ℕ); coordinates are kept rational, matching the source where
fractional source rectangles are legal drawImage inputs. -/
structure Bitmap where
  width : ℚ
  height : ℚ
  pixel : ℚ → ℚ → ℕ

/-- `document.createElement("canvas")` sized w×h: a blank (all-zero)
surface. -/
def blankCanvas (w h : ℚ) : Bitmap :=
  { width := w, height := h, pixel := fun _ _ => 0 }

/-- `ctx.drawImage(src, sx, sy, sw, sh, dx, dy, dw, dh)`: map the source
rectangle onto the destination rectangle; inside the destination rectangle
the destination pixel (i, j) samples the source at the linearly
corresponding position, outside it the destination is untouched. -/
def drawImage (src : Bitmap) (sx sy sw sh dx dy dw dh : ℚ) (dst : Bitmap) : Bitmap :=
  { dst with pixel := fun i j =>
      if dx ≤ i ∧ i < dx + dw ∧ dy ≤ j ∧ j < dy + dh then
        src.pixel (sx + (i - dx) * sw / dw) (sy + (j - dy) * sh / dh)
      else dst.pixel i j }

/-- `handleCropConfirm` of the Screenshotter: scale the selection rectangle
from viewport/CSS space (vw × vh, i.e. window.innerWidth × innerHeight)
into the image's native pixel space by naturalWidth/vw and naturalHeight/vh,
size a fresh canvas to the scaled selection, and copy exactly that region
with an unscaled (source size = destination size) drawImage. -/
def handleCropConfirm (img : Bitmap) (vw vh : ℚ) (r : Rect) : Bitmap :=
  let scaleX := img.width / vw
  let scaleY := img.height / vh
  let sx := r.x * scaleX
  let sy := r.y * scaleY
  let sw := r.w * scaleX
  let sh := r.h * scaleY
  drawImage img sx sy sw sh 0 0 sw sh (blankCanvas sw sh)

/-- C1: the cropped bitmap produced on crop confirmation has exactly the
size of the selection rectangle scaled by nativeSize/viewportSize on each
axis, and each of its pixels samples the source at the scaled origin plus
the (unscaled) offset — i.e. it is exactly the native-pixel region starting
at (r.x·NW/VW, r.y·NH/VH) of size (r.w·NW/VW) × (r.h·NH/VH). -/
theorem crop_extracts_native_region (img : Bitmap) (vw vh : ℚ) (r : Rect)
    (hsw : 0 < r.w * (img.width / vw)) (hsh : 0 < r.h * (img.height / vh)) :
    (handleCropConfirm img vw vh r).width = r.w * (img.width / vw) ∧
    (handleCropConfirm img vw vh r).height = r.h * (img.height / vh) ∧
    ∀ i j : ℚ, 0 ≤ i → i < r.w * (img.width / vw) →
      0 ≤ j → j < r.h * (img.height / vh) →
      (handleCropConfirm img vw vh r).pixel i j =
        img.pixel (r.x * (img.width / vw) + i) (r.y * (img.height / vh) + j) := by
  refine ⟨rfl, rfl, ?_⟩
  intro i j hi0 hiw hj0 hjh
  show (if 0 ≤ i ∧ i < 0 + r.w * (img.width / vw) ∧ 0 ≤ j ∧
        j < 0 + r.h * (img.height / vh) then
      img.pixel (r.x * (img.width / vw) + (i - 0) * (r.w * (img.width / vw)) /
          (r.w * (img.width / vw)))
        (r.y * (img.height / vh) + (j - 0) * (r.h * (img.height / vh)) /
          (r.h * (img.height / vh)))
    else (blankCanvas (r.w * (img.width / vw)) (r.h * (img.height / vh))).pixel i j) =
      img.pixel (r.x * (img.width / vw) + i) (r.y * (img.height / vh) + j)
  rw [if_pos ⟨hi0, by simpa using hiw, hj0, by simpa using hjh⟩]
  have hswne : r.w * (img.width / vw) ≠ 0 := ne_of_gt hsw
  have hshne : r.h * (img.height / vh) ≠ 0 := ne_of_gt hsh
  rw [sub_zero, sub_zero, mul_div_cancel_right₀ i hswne, mul_div_cancel_right₀ j hshne]

/-- A concrete 2000×1600 native capture whose pixel (40, 40) alone is lit,
to witness where the crop samples from. -/
def captureImg : Bitmap :=
  { width := 2000, height := 1600,
    pixel := fun i j => if i = 40 ∧ j = 40 then 1 else 0 }

theorem crop_extracts_native_region_witness :
    (handleCropConfirm captureImg 1000 800 (toRect 20 20 220 170)).width = 400 ∧
    (handleCropConfirm captureImg 1000 800 (toRect 20 20 220 170)).height = 300 ∧
    (handleCropConfirm captureImg 1000 800 (toRect 20 20 220 170)).pixel 0 0 = 1 := by
  have hr : toRect 20 20 220 170 = (⟨20, 20, 200, 150⟩ : Rect) := by
    simp only [toRect, Rect.mk.injEq]
    norm_num
  have h := crop_extracts_native_region captureImg 1000 800 ⟨20, 20, 200, 150⟩
    (by norm_num [captureImg]) (by norm_num [captureImg])
  refine ⟨?_, ?_, ?_⟩
  · rw [hr, h.1]
    norm_num [captureImg]
  · rw [hr, h.2.1]
    norm_num [captureImg]
  · rw [hr, h.2.2 0 0 le_rfl (by norm_num [captureImg]) le_rfl (by norm_num [captureImg])]
    norm_num [captureImg]

end Feedback
